import Mathlib

/-!
Verification development for the filesystem abstraction layer
(`src/filesystem.cpp`): name escaping codec, escape-aware comparators,
path helpers, async I/O fallbacks and the directory-notification funnel.

Names are byte sequences (`List Nat`, each element in 0..255); comparator
inputs are the codepoint streams produced by `unicodeCodepointIterator`
(for the ASCII inputs used in the concrete claims, bytes and codepoints
coincide).  Escape processing that can hit the `assert(seqsize)` guard
(an invalid UTF-8 lead byte makes the loop stop advancing) is modelled
with `Option`: `none` stands for that assertion failure / non-termination.
-/

namespace MegaFs

/-- `FileSystemType` enumeration as used by `filesystem.cpp`. -/
inductive FileSystemType
  | FS_UNKNOWN
  | FS_APFS
  | FS_HFS
  | FS_EXT
  | FS_FAT32
  | FS_EXFAT
  | FS_NTFS
  | FS_FUSE
  | FS_SDCARDFS
  | FS_F2FS
  | FS_XFS
deriving DecidableEq

open FileSystemType

/-- `isCaseInsensitive` (filesystem.cpp): EXFAT, FAT32, NTFS and UNKNOWN are
case-insensitive. -/
def isCaseInsensitive (t : FileSystemType) : Bool :=
  t == FS_EXFAT || t == FS_FAT32 || t == FS_NTFS || t == FS_UNKNOWN

/-- `islchex` (headers): a lowercase hexadecimal digit, i.e. byte 48..57
(digits) or 97..102 (letters a..f). -/
def islchex (c : Nat) : Bool :=
  (decide (48 ≤ c) && decide (c ≤ 57)) || (decide (97 ≤ c) && decide (c ≤ 102))

/-- `hexval` (headers): value of a lowercase hexadecimal digit. -/
def hexval (c : Nat) : Nat :=
  if c ≤ 57 then c - 48 else c - 87

/-- One lowercase hexadecimal digit for a value in 0..15, as produced by
the `sprintf("%%%02x", character)` calls. -/
def hexDigit (m : Nat) : Nat :=
  if m < 10 then 48 + m else 87 + m

/-- `std::iscntrl` in the C locale: bytes 0..31 and 127. -/
def iscntrl (c : Nat) : Bool :=
  decide (c < 32) || decide (c = 127)

/-- The three-byte escape sequence `"%xx"` produced by
`sprintf(buffer, "%%%02x", character)` for a byte value in 0..255. -/
def escapeSequence (c : Nat) : List Nat :=
  [37, hexDigit (c / 16), hexDigit (c % 16)]

/-- `Utils::utf8SequenceSize` (headers): length of the UTF-8 sequence whose
lead byte is given; 0 for a continuation or invalid lead byte. -/
def utf8SequenceSize (b : Nat) : Nat :=
  if b ≤ 127 then 1
  else if 192 ≤ b && b ≤ 223 then 2
  else if 224 ≤ b && b ≤ 239 then 3
  else if 240 ≤ b && b ≤ 247 then 4
  else 0

/-- `FileSystemAccess::islocalfscompatible` (filesystem.cpp lines 316-349):
NUL and the percent byte are always incompatible; HFS/APFS forbid colon and
slash; EXT/F2FS/XFS forbid slash; the FAT family, NTFS, FUSE, SDCARDFS and
UNKNOWN forbid control bytes and the `strchr` set backslash slash colon
question-mark double-quote less-than greater-than pipe asterisk. -/
def islocalfscompatible (c : Nat) (t : FileSystemType) : Bool :=
  if c = 0 then false
  else if c = 37 then false
  else
    match t with
    | FS_APFS | FS_HFS => !(c == 58) && !(c == 47)
    | FS_EXT | FS_F2FS | FS_XFS => !(c == 47)
    | _ => !(iscntrl c || c ∈ [92, 47, 58, 63, 34, 60, 62, 124, 42])

/-- `FileSystemAccess::isEscape` (filesystem.cpp lines 230-235): the tail of
the name starting at the current byte begins with `%` followed by two
lowercase hex digits.  Reading past the end of the list corresponds to the
NUL terminator, which is not a hex digit. -/
def isEscape : List Nat → Bool
  | 37 :: h1 :: h2 :: _ => islchex h1 && islchex h2
  | _ => false

/-- `FileSystemAccess::decodeEscape` (filesystem.cpp lines 220-228): the
decoded byte of a valid escape sequence, -1 (here `none`) otherwise. -/
def decodeEscape : List Nat → Option Nat
  | 37 :: h1 :: h2 :: _ =>
    if islchex h1 && islchex h2 then some (hexval h1 * 16 + hexval h2) else none
  | _ => none

/-- The scanning loop of `FileSystemAccess::escapefsincompatible`
(filesystem.cpp lines 366-402), with explicit fuel (one unit per loop
iteration; every iteration consumes at least one input byte, so fuel equal
to the length of the input suffices).  `none` models the
`assert(seqsize)` failure on an invalid UTF-8 lead byte.
At an escape sequence that decodes to a control byte, the loop substitutes
the raw byte back in and reprocesses it at the same position (it is then
either compatible, or re-escaped); at an escape sequence decoding to a
non-control byte there is no substitution, so the leading `%` itself is
escaped (it is never filesystem-compatible) and scanning resumes after the
inserted `%25` at the two hex digits; otherwise a single incompatible byte
is replaced by its escape sequence and multi-byte UTF-8 sequences are
skipped untouched. -/
def escapeLoopFuel (fs : FileSystemType) : Nat → List Nat → Option (List Nat)
  | _, [] => some []
  | 0, _ :: _ => none
  | n + 1, b :: rest =>
    if b = 37 then
      match rest with
      | h1 :: h2 :: tail =>
        if islchex h1 && islchex h2 then
          let c := hexval h1 * 16 + hexval h2
          if iscntrl c then
            if islocalfscompatible c fs then
              (escapeLoopFuel fs n tail).map (fun r => c :: r)
            else
              (escapeLoopFuel fs n tail).map (fun r => escapeSequence c ++ r)
          else
            (escapeLoopFuel fs n rest).map (fun r => escapeSequence 37 ++ r)
        else
          (escapeLoopFuel fs n rest).map (fun r => escapeSequence 37 ++ r)
      | _ => (escapeLoopFuel fs n rest).map (fun r => escapeSequence 37 ++ r)
    else
      let s := utf8SequenceSize b
      if s = 0 then none
      else if s = 1 then
        if islocalfscompatible b fs then
          (escapeLoopFuel fs n rest).map (fun r => b :: r)
        else
          (escapeLoopFuel fs n rest).map (fun r => escapeSequence b ++ r)
      else
        (escapeLoopFuel fs n (rest.drop (s - 1))).map
          (fun r => b :: (rest.take (s - 1) ++ r))

/-- `FileSystemAccess::escapefsincompatible` (filesystem.cpp lines 352-403):
`".."` and `"."` are wholesale-replaced by `"%2e%2e"` / `"%2e"`; any other
name goes through the scanning loop. -/
def escapefsincompatible (name : List Nat) (fs : FileSystemType) : Option (List Nat) :=
  if name = [46, 46] then some [37, 50, 101, 37, 50, 101]
  else if name = [46] then some [37, 50, 101]
  else escapeLoopFuel fs name.length name

/-- The scanning loop of `FileSystemAccess::unescapefsincompatible`
(filesystem.cpp lines 419-457): a raw control byte is re-escaped and the
inserted sequence skipped; an escape sequence decoding to a control byte is
left encoded; an escape sequence decoding to a non-control byte is replaced
by that byte (which is not reprocessed); any other byte is kept. -/
def unescapeLoopFuel : Nat → List Nat → List Nat
  | _, [] => []
  | 0, l => l
  | n + 1, b :: rest =>
    if iscntrl b then escapeSequence b ++ unescapeLoopFuel n rest
    else if b = 37 then
      match rest with
      | h1 :: h2 :: tail =>
        if islchex h1 && islchex h2 then
          let c := hexval h1 * 16 + hexval h2
          if iscntrl c then b :: h1 :: h2 :: unescapeLoopFuel n tail
          else c :: unescapeLoopFuel n tail
        else b :: unescapeLoopFuel n rest
      | _ => b :: unescapeLoopFuel n rest
    else b :: unescapeLoopFuel n rest

/-- The unescape scanning loop at its natural fuel (one fuel unit per
iteration; every iteration consumes at least one byte). -/
def unescapeLoop (name : List Nat) : List Nat :=
  unescapeLoopFuel name.length name

/-- `FileSystemAccess::unescapefsincompatible` (filesystem.cpp lines
405-458): `"%2e%2e"` and `"%2e"` are wholesale-replaced by `".."` / `"."`;
any other name goes through the scanning loop. -/
def unescapefsincompatible (name : List Nat) : List Nat :=
  if name = [37, 50, 101, 37, 50, 101] then [46, 46]
  else if name = [37, 50, 101] then [46]
  else unescapeLoop name

/-- One step of the local side of the comparators (`detail::isEscape` /
`detail::decodeEscape` on a `UnicodeCodepointIterator`): a syntactically
valid escape token is decoded to its byte, consuming three codepoints;
anything else yields the next codepoint.  An exhausted iterator yields 0
(never reached under the loop guard). -/
def stepLocal (l : List Nat) : Nat × List Nat :=
  match l with
  | c :: h1 :: h2 :: rest =>
    if c = 37 ∧ islchex h1 = true ∧ islchex h2 = true then
      (hexval h1 * 16 + hexval h2, rest)
    else (c, h1 :: h2 :: rest)
  | c :: rest => (c, rest)
  | [] => (0, [])

/-- One step of the remote side of `detail::remoteCompare`
(`detail::isControlEscape`, filesystem.cpp lines 52-63): an escape token is
decoded only when the decoded byte is a control byte (less than 0x20 or
equal to 0x7f); otherwise the leading percent is taken literally. -/
def stepRemote (l : List Nat) : Nat × List Nat :=
  match l with
  | c :: h1 :: h2 :: rest =>
    if c = 37 ∧ islchex h1 = true ∧ islchex h2 = true
        ∧ (hexval h1 * 16 + hexval h2 < 32 ∨ hexval h1 * 16 + hexval h2 = 127) then
      (hexval h1 * 16 + hexval h2, rest)
    else (c, h1 :: h2 :: rest)
  | c :: rest => (c, rest)
  | [] => (0, [])

/-- `detail::identity` (filesystem.cpp lines 47-50). -/
def identity (c : Nat) : Nat := c

/-- Modelled from the spec: `Utils::toUpper` is not part of the source
excerpt; the spec describes the transform as an uppercase fold of one
codepoint, modelled here as ASCII uppercase folding (sufficient for the
ASCII codepoints appearing in the claims). -/
def toUpper (c : Nat) : Nat :=
  if 97 ≤ c ∧ c ≤ 122 then c - 32 else c

/-- `detail::localCompare` (filesystem.cpp lines 74-121) with explicit fuel
(one unit per loop iteration; each iteration consumes at least one
codepoint from each stream, so fuel equal to the combined length of the
inputs suffices).  Both sides decode every valid escape token; the
transform is applied before comparing; the first mismatch yields the
signed difference; a fully consumed stream sorts first. -/
def localCompareFuel (t : Nat → Nat) : Nat → List Nat → List Nat → Int
  | _, [], [] => 0
  | _, [], _ :: _ => -1
  | _, _ :: _, [] => 1
  | 0, _ :: _, _ :: _ => 0
  | n + 1, l1, l2 =>
    let p1 := stepLocal l1
    let p2 := stepLocal l2
    if t p1.1 = t p2.1 then localCompareFuel t n p1.2 p2.2
    else (t p1.1 : Int) - (t p2.1 : Int)

/-- `detail::localCompare` at its natural fuel. -/
def localCompare (t : Nat → Nat) (l1 l2 : List Nat) : Int :=
  localCompareFuel t (l1.length + l2.length) l1 l2

/-- `detail::remoteCompare` (filesystem.cpp lines 124-171) with explicit
fuel: the first (local) stream decodes every valid escape token, the second
(remote) stream decodes a token only when it yields a control byte. -/
def remoteCompareFuel (t : Nat → Nat) : Nat → List Nat → List Nat → Int
  | _, [], [] => 0
  | _, [], _ :: _ => -1
  | _, _ :: _, [] => 1
  | 0, _ :: _, _ :: _ => 0
  | n + 1, l1, l2 =>
    let p1 := stepLocal l1
    let p2 := stepRemote l2
    if t p1.1 = t p2.1 then remoteCompareFuel t n p1.2 p2.2
    else (t p1.1 : Int) - (t p2.1 : Int)

/-- `detail::remoteCompare` at its natural fuel. -/
def remoteCompare (t : Nat → Nat) (l1 l2 : List Nat) : Int :=
  remoteCompareFuel t (l1.length + l2.length) l1 l2

/-- `LocalPath` (filesystem.cpp): a platform-native encoded sequence. -/
structure LocalPath where
  localpath : List Nat
deriving DecidableEq

/-- `LocalPath::compare(const LocalPath&)` (filesystem.cpp lines
1231-1237). -/
def LocalPath.compare (p rhs : LocalPath) : Int :=
  localCompare identity p.localpath rhs.localpath

/-- `LocalPath::compare(const string&)` (filesystem.cpp lines 1239-1245). -/
def LocalPath.compareRemote (p : LocalPath) (rhs : List Nat) : Int :=
  remoteCompare identity p.localpath rhs

/-- `LocalPath::ciCompare(const LocalPath&)` (filesystem.cpp lines
1247-1253). -/
def LocalPath.ciCompare (p rhs : LocalPath) : Int :=
  localCompare toUpper p.localpath rhs.localpath

/-- `LocalPath::ciCompare(const string&)` (filesystem.cpp lines
1255-1261). -/
def LocalPath.ciCompareRemote (p : LocalPath) (rhs : List Nat) : Int :=
  remoteCompare toUpper p.localpath rhs

/-- `NamePtrCmp::operator()` (filesystem.cpp lines 188-200): the three-way
`remoteCompare` result (uppercase fold for case-insensitive filesystem
types, identity otherwise) converted to `bool`, i.e. true exactly when the
comparison is nonzero. -/
def NamePtrCmp (t : FileSystemType) (lhs rhs : List Nat) : Bool :=
  decide (remoteCompare (if isCaseInsensitive t then toUpper else identity) lhs rhs ≠ 0)

/-- `Notification` (one filesystem-change event): arrival tick, owning-node
handle, relative path. -/
structure Notification where
  timestamp : Nat
  localnode : Nat
  path : List Nat
deriving DecidableEq

/-- `DirNotify` per-watched-root state as used by `notify` (the
mutex-guarded failure pair is carried to express that `notify` ignores
it). -/
structure DirNotify where
  localbasepath : List Nat
  ignore : List Nat
  mFailed : Int
  mErrorCount : Nat
deriving DecidableEq

/-- `DirNotify::notify` (filesystem.cpp lines 588-598): builds one
`Notification` whose timestamp is 0 when `immediate` and the coarse clock
tick `Waiter::ds` (passed here as `ds`) otherwise, and pushes it at the
back of the queue unconditionally. -/
def DirNotify.notify (_dn : DirNotify) (q : List Notification) (l : Nat)
    (path : List Nat) (immediate : Bool) (ds : Nat) : List Notification :=
  q ++ [{ timestamp := if immediate then 0 else ds, localnode := l, path := path }]

/-- `AsyncIOContext` fields used by the portable async fallbacks: failure
flag, transient-retry flag, finished flag, and whether `userCallback` is
non-null. -/
structure AsyncIOContext where
  failed : Bool := false
  retry : Bool := false
  finished : Bool := false
  hasUserCallback : Bool := true
deriving DecidableEq

/-- `FileAccess::asyncsysopen` (filesystem.cpp lines 787-796): the portable
fallback marks the context as a permanent failure (failed, no retry,
finished) and, when a callback is present, invokes it synchronously; the
second component records what the callback observes of `finished`
(`none` when there is no callback). -/
def asyncsysopen (context : AsyncIOContext) : AsyncIOContext × Option Bool :=
  let c := { context with failed := true, retry := false, finished := true }
  (c, if c.hasUserCallback then some c.finished else none)

/-- `FileAccess::asyncsysread` (filesystem.cpp lines 828-837): identical
inline permanent-failure completion. -/
def asyncsysread (context : AsyncIOContext) : AsyncIOContext × Option Bool :=
  let c := { context with failed := true, retry := false, finished := true }
  (c, if c.hasUserCallback then some c.finished else none)

/-- `FileAccess::asyncsyswrite` (filesystem.cpp lines 857-866): identical
inline permanent-failure completion. -/
def asyncsyswrite (context : AsyncIOContext) : AsyncIOContext × Option Bool :=
  let c := { context with failed := true, retry := false, finished := true }
  (c, if c.hasUserCallback then some c.finished else none)

/-- `LocalPath::trimNonDriveTrailingSeparator` (filesystem.cpp lines
1051-1066), non-Windows branch: remove one trailing separator if present. -/
def trimNonDriveTrailingSeparator (sep : Nat) (l : List Nat) : List Nat :=
  if l.getLast? = some sep then l.dropLast else l

/-- The scanning loop of `LocalPath::getLeafnameByteIndex` (filesystem.cpp
lines 1090-1103): starting from `p = size`, repeatedly decrement; exit with
0 when `p` reaches 0; exit with `p + 1` when the byte at `p` is the
separator (index 0 is never examined). -/
def getLeafnameByteIndexAux (sep : Nat) (l : List Nat) : Nat → Nat
  | 0 => 0
  | p + 1 =>
    if p = 0 then 0
    else if l.getD p 0 = sep then p + 1
    else getLeafnameByteIndexAux sep l p

/-- `LocalPath::getLeafnameByteIndex` (filesystem.cpp lines 1090-1103). -/
def getLeafnameByteIndex (sep : Nat) (l : List Nat) : Nat :=
  getLeafnameByteIndexAux sep l l.length

/-- `FileSystemAccess::getlocalfstype(const LocalPath&)` (filesystem.cpp
lines 268-314).  The two-argument overload — the platform collaborator
that resolves an existing path to its concrete filesystem type — is not
part of the source excerpt and is passed as the `resolve` parameter
(`none` = the call returned false).  The function checks the given path,
then strips a trailing separator and the final component and checks that
immediate parent, and otherwise returns `FS_UNKNOWN`. -/
def getlocalfstype (resolve : List Nat → Option FileSystemType) (sep : Nat)
    (path : List Nat) : FileSystemType :=
  if path = [] then FS_UNKNOWN
  else
    match resolve path with
    | some t => t
    | none =>
      let parentPath := trimNonDriveTrailingSeparator sep path
      if parentPath = [] then FS_UNKNOWN
      else
        let index := getLeafnameByteIndex sep parentPath
        if index ≠ 0 then
          match resolve (parentPath.take index) with
          | some t => t
          | none => FS_UNKNOWN
        else FS_UNKNOWN

/-- Modelled from the spec: the ancestor search of section 4.3 — "if the
path itself resolves to a concrete type, return it; otherwise strip the
trailing separator and the final component and recurse on the parent,
continuing until an existing ancestor resolves or the path becomes empty,
in which case the result is UNKNOWN".  Fuel bounds the recursion depth;
each recursive step passes a strictly shorter path, so fuel equal to the
path length suffices. -/
def getlocalfstypeSpecFuel (resolve : List Nat → Option FileSystemType)
    (sep : Nat) : Nat → List Nat → FileSystemType
  | _, [] => FS_UNKNOWN
  | 0, _ :: _ => FS_UNKNOWN
  | n + 1, path =>
    match resolve path with
    | some t => t
    | none =>
      let parentPath := trimNonDriveTrailingSeparator sep path
      if parentPath = [] then FS_UNKNOWN
      else
        let index := getLeafnameByteIndex sep parentPath
        if index ≠ 0 then getlocalfstypeSpecFuel resolve sep n (parentPath.take index)
        else FS_UNKNOWN

/-- Modelled from the spec: the recursive ancestor search at its natural
fuel. -/
def getlocalfstypeSpec (resolve : List Nat → Option FileSystemType) (sep : Nat)
    (path : List Nat) : FileSystemType :=
  getlocalfstypeSpecFuel resolve sep path.length path

/-! ## Theorems -/

/-- The percent byte is incompatible with every filesystem type. -/
theorem islocalfscompatible_percent (t : FileSystemType) :
    islocalfscompatible 37 t = false := by
  cases t <;> rfl

/-- NUL is incompatible with every filesystem type. -/
theorem islocalfscompatible_nul (t : FileSystemType) :
    islocalfscompatible 0 t = false := by
  cases t <;> rfl

/-- A compatible byte is not the percent byte. -/
theorem ne_37_of_compatible {b : Nat} {t : FileSystemType}
    (h : islocalfscompatible b t = true) : b ≠ 37 := by
  intro hb; subst hb; rw [islocalfscompatible_percent] at h; exact absurd h (by simp)

/-- Claim C3: with the identity transform, `remoteCompare` of the local
string "a%25b" against the remote string "a%b" is 0: the local side
decodes the valid escape token "%25" to the percent byte, while the remote
side decodes a token only when it yields a control byte, so a remote "%25"
or bare "%" stays a literal percent character (the step lemmas exhibit the
asymmetry on the token "%25" itself). -/
theorem remoteCompare_escaped_percent_equal :
    remoteCompare identity [97, 37, 50, 53, 98] [97, 37, 98] = 0 ∧
    stepLocal [37, 50, 53, 98] = (37, [98]) ∧
    stepRemote [37, 50, 53, 98] = (37, [50, 53, 98]) := by
  decide

/-- Claim C5, counterexample: byte 1 is a control byte, yet
`islocalfscompatible` accepts it for `FS_APFS` (the APFS/HFS branch only
rejects colon and slash), contradicting the claim that every control byte
is rejected for APFS. -/
theorem islocalfscompatible_apfs_control_accepted :
    iscntrl 1 = true ∧ islocalfscompatible 1 FS_APFS = true := by
  decide

/-- Claim C5, amended: for `FS_APFS`, `islocalfscompatible` rejects
exactly NUL, the percent byte, colon and slash, and accepts every other
byte — in particular every other printable ASCII character, but also
non-NUL control bytes. -/
theorem islocalfscompatible_apfs_characterization (c : Nat) :
    islocalfscompatible c FS_APFS = true ↔ (c ≠ 0 ∧ c ≠ 37 ∧ c ≠ 58 ∧ c ≠ 47) := by
  unfold islocalfscompatible
  split_ifs with h0 h37 <;> simp_all

/-- Claim C5 witness: the amended characterization applied at byte 65. -/
theorem islocalfscompatible_apfs_characterization_witness :
    islocalfscompatible 65 FS_APFS = true :=
  (islocalfscompatible_apfs_characterization 65).mpr (by decide)

/-- Claim C7: `ciCompare` of "%41BC" against "abc" under the uppercase-fold
transform is 0 — the token "%41" decodes to byte 65 and the remaining
characters fold equal — while the byte-exact `compare` of the same inputs
(identity transform) is nonzero; this holds for both the `LocalPath` and
the remote-string overloads. -/
theorem ciCompare_case_fold_example :
    (LocalPath.mk [37, 52, 49, 66, 67]).ciCompare (LocalPath.mk [97, 98, 99]) = 0 ∧
    (LocalPath.mk [37, 52, 49, 66, 67]).compare (LocalPath.mk [97, 98, 99]) ≠ 0 ∧
    (LocalPath.mk [37, 52, 49, 66, 67]).ciCompareRemote [97, 98, 99] = 0 ∧
    (LocalPath.mk [37, 52, 49, 66, 67]).compareRemote [97, 98, 99] ≠ 0 := by
  decide

/-- Claim C8: each portable async fallback (`asyncsysopen`, `asyncsysread`,
`asyncsyswrite`) completes the context inline as a permanent failure —
`failed` true, `retry` false, `finished` true — and invokes the completion
callback synchronously whenever one is present, the callback observing the
context already finished. -/
theorem asyncsys_fallback_permanent_failure (c : AsyncIOContext) :
    ((asyncsysopen c).1.failed = true ∧ (asyncsysopen c).1.retry = false ∧
      (asyncsysopen c).1.finished = true ∧
      (asyncsysopen c).2 = if c.hasUserCallback then some true else none) ∧
    ((asyncsysread c).1.failed = true ∧ (asyncsysread c).1.retry = false ∧
      (asyncsysread c).1.finished = true ∧
      (asyncsysread c).2 = if c.hasUserCallback then some true else none) ∧
    ((asyncsyswrite c).1.failed = true ∧ (asyncsyswrite c).1.retry = false ∧
      (asyncsyswrite c).1.finished = true ∧
      (asyncsyswrite c).2 = if c.hasUserCallback then some true else none) :=
  ⟨⟨rfl, rfl, rfl, rfl⟩, ⟨rfl, rfl, rfl, rfl⟩, ⟨rfl, rfl, rfl, rfl⟩⟩

/-- Claim C9: `DirNotify::notify` enqueues exactly one `Notification` at the
back of the queue, with arrival tick 0 when `immediate` is true and the
coarse clock tick `ds` otherwise; the push happens unconditionally — the
result does not depend on the `DirNotify` state (in particular not on its
failure fields). -/
theorem DirNotify_notify_enqueues_single (dn dn2 : DirNotify)
    (q : List Notification) (l : Nat) (path : List Nat) (immediate : Bool) (ds : Nat) :
    DirNotify.notify dn q l path immediate ds
        = q ++ [{ timestamp := if immediate then 0 else ds,
                  localnode := l, path := path }] ∧
    (DirNotify.notify dn q l path immediate ds).length = q.length + 1 ∧
    DirNotify.notify dn q l path immediate ds
        = DirNotify.notify dn2 q l path immediate ds := by
  refine ⟨rfl, ?_, rfl⟩
  simp [DirNotify.notify]

/-- Claim C10: `NamePtrCmp` converts the three-way `remoteCompare` result
(uppercase fold for case-insensitive types, identity otherwise) to `bool`:
it is true exactly when the comparison is nonzero — an inequality test, not
a less-than predicate — so whenever the comparison is nonzero in both
argument orders it returns true in both orders. -/
theorem NamePtrCmp_inequality_test (t : FileSystemType) (lhs rhs : List Nat) :
    (NamePtrCmp t lhs rhs = true ↔
      remoteCompare (if isCaseInsensitive t then toUpper else identity) lhs rhs ≠ 0) ∧
    (remoteCompare (if isCaseInsensitive t then toUpper else identity) lhs rhs ≠ 0 →
      remoteCompare (if isCaseInsensitive t then toUpper else identity) rhs lhs ≠ 0 →
      NamePtrCmp t lhs rhs = true ∧ NamePtrCmp t rhs lhs = true) := by
  refine ⟨by simp [NamePtrCmp], fun h1 h2 => ⟨?_, ?_⟩⟩ <;>
    simp [NamePtrCmp, h1, h2]

/-- Claim C10 witness: the conversion applied with the case-sensitive
transform to two names that compare nonzero in both orders. -/
theorem NamePtrCmp_inequality_test_witness :
    NamePtrCmp FS_EXT [97] [98] = true ∧ NamePtrCmp FS_EXT [98] [97] = true :=
  (NamePtrCmp_inequality_test FS_EXT [97] [98]).2 (by decide) (by decide)

/-- Reduction of `stepLocal` on a stream of at least three codepoints. -/
theorem stepLocal_cons3 (c h1 h2 : Nat) (rest : List Nat) :
    stepLocal (c :: h1 :: h2 :: rest) =
      if c = 37 ∧ islchex h1 = true ∧ islchex h2 = true then
        (hexval h1 * 16 + hexval h2, rest)
      else (c, h1 :: h2 :: rest) := rfl

/-- One comparison step consumes at least one codepoint. -/
theorem stepLocal_tail_lt (b : Nat) (r : List Nat) :
    (stepLocal (b :: r)).2.length < (b :: r).length := by
  rcases r with _ | ⟨h1, _ | ⟨h2, rest⟩⟩
  · simp [stepLocal]
  · simp [stepLocal]
  · rw [stepLocal_cons3]
    split <;> (simp; try omega)

/-- `localCompare` of a stream against itself is 0 (fuel version). -/
theorem localCompareFuel_self (t : Nat → Nat) :
    ∀ n l, l.length ≤ n → localCompareFuel t n l l = 0 := by
  intro n
  induction n with
  | zero =>
    intro l hl
    obtain rfl : l = [] := List.length_eq_zero.mp (Nat.le_zero.mp hl)
    rfl
  | succ n ih =>
    intro l hl
    cases l with
    | nil => rfl
    | cons b r =>
      have hlt := stepLocal_tail_lt b r
      simp only [localCompareFuel, if_true]
      exact ih _ (by simp at hl hlt ⊢; omega)

/-- Swapping the arguments of `localCompare` flips the sign (fuel
version). -/
theorem localCompareFuel_antisymm (t : Nat → Nat) :
    ∀ n l1 l2, l1.length ≤ n → l2.length ≤ n →
      localCompareFuel t n l1 l2 = - localCompareFuel t n l2 l1 := by
  intro n
  induction n with
  | zero =>
    intro l1 l2 h1 h2
    obtain rfl : l1 = [] := List.length_eq_zero.mp (Nat.le_zero.mp h1)
    obtain rfl : l2 = [] := List.length_eq_zero.mp (Nat.le_zero.mp h2)
    rfl
  | succ n ih =>
    intro l1 l2 h1 h2
    cases l1 with
    | nil => cases l2 with
      | nil => rfl
      | cons b r => rfl
    | cons a r1 => cases l2 with
      | nil => rfl
      | cons b r2 =>
        have hlt1 := stepLocal_tail_lt a r1
        have hlt2 := stepLocal_tail_lt b r2
        simp only [localCompareFuel]
        by_cases h : t (stepLocal (a :: r1)).1 = t (stepLocal (b :: r2)).1
        · rw [if_pos h, if_pos h.symm]
          exact ih _ _ (by simp at h1 hlt1 ⊢; omega) (by simp at h2 hlt2 ⊢; omega)
        · rw [if_neg h, if_neg (fun hh => h hh.symm)]
          omega

/-- A mismatch at the first decoded codepoint yields the signed difference
(fuel version). -/
theorem localCompareFuel_mismatch (t : Nat → Nat) (n a b : Nat) (r1 r2 : List Nat)
    (h : t (stepLocal (a :: r1)).1 ≠ t (stepLocal (b :: r2)).1) :
    localCompareFuel t (n + 1) (a :: r1) (b :: r2)
      = (t (stepLocal (a :: r1)).1 : Int) - (t (stepLocal (b :: r2)).1 : Int) := by
  simp only [localCompareFuel]
  rw [if_neg h]

/-- An exhausted first stream sorts first (fuel version). -/
theorem localCompareFuel_nil_cons (t : Nat → Nat) (k b : Nat) (r : List Nat) :
    localCompareFuel t k [] (b :: r) = -1 := by
  cases k <;> rfl

/-- An exhausted second stream sorts last (fuel version). -/
theorem localCompareFuel_cons_nil (t : Nat → Nat) (k b : Nat) (r : List Nat) :
    localCompareFuel t k (b :: r) [] = 1 := by
  cases k <;> rfl

/-- Claim C6: `localCompare` (with any per-codepoint transform, in
particular identity and the uppercase fold) returns 0 on identical
inputs, flips its sign when the arguments are swapped, returns the signed
difference of the transformed decoded codepoints at a first-step mismatch,
and sorts a fully consumed stream first (negative when the first argument
is the exhausted one). -/
theorem localCompare_order_properties (t : Nat → Nat) (l l1 l2 : List Nat) :
    localCompare t l l = 0 ∧
    localCompare t l1 l2 = - localCompare t l2 l1 ∧
    (l1 ≠ [] → l2 ≠ [] → t (stepLocal l1).1 ≠ t (stepLocal l2).1 →
      localCompare t l1 l2 = (t (stepLocal l1).1 : Int) - (t (stepLocal l2).1 : Int)) ∧
    (l2 ≠ [] → localCompare t [] l2 = -1 ∧ localCompare t l2 [] = 1) := by
  refine ⟨?_, ?_, ?_, ?_⟩
  · exact localCompareFuel_self t _ l (Nat.le_add_right _ _)
  · have h := localCompareFuel_antisymm t (l1.length + l2.length) l1 l2
      (Nat.le_add_right _ _) (Nat.le_add_left _ _)
    unfold localCompare
    rw [Nat.add_comm l2.length l1.length]
    exact h
  · intro h1 h2 hne
    obtain ⟨a, r1, rfl⟩ := List.exists_cons_of_ne_nil h1
    obtain ⟨b, r2, rfl⟩ := List.exists_cons_of_ne_nil h2
    unfold localCompare
    rw [show (a :: r1).length + (b :: r2).length = (r1.length + r2.length + 1) + 1 from by
      simp; omega]
    exact localCompareFuel_mismatch t _ a b r1 r2 hne
  · intro h2
    obtain ⟨b, r, rfl⟩ := List.exists_cons_of_ne_nil h2
    exact ⟨localCompareFuel_nil_cons t _ b r, localCompareFuel_cons_nil t _ b r⟩

/-- Claim C6 witness: the order properties applied at concrete streams. -/
theorem localCompare_order_properties_witness :
    localCompare identity [97] [98] = -1 ∧ localCompare identity [] [98] = -1 := by
  constructor
  · have h := (localCompare_order_properties identity [] [97] [98]).2.2.1
      (by decide) (by decide) (by decide)
    rw [h]; decide
  · exact ((localCompare_order_properties identity [] [97] [98]).2.2.2 (by decide)).1

/-- Claim C1, counterexample: escaping is not idempotent.  For the name "."
(byte 46), one application yields "%2e", but a second application escapes
the leading percent of the non-control token and yields "%252e". -/
theorem escapefsincompatible_not_idempotent :
    (escapefsincompatible [46] FS_UNKNOWN).bind (fun m => escapefsincompatible m FS_UNKNOWN)
      ≠ escapefsincompatible [46] FS_UNKNOWN := by
  decide

/-- Claim C2, counterexample: on `FS_EXT` the control byte 1 is
filesystem-compatible (only slash is forbidden), so `escape` leaves the
name `[1]` unchanged, but `unescape` defensively re-escapes the raw
control byte, producing "%01" instead of the original name. -/
theorem unescape_escape_not_identity_on_compatible :
    (∀ b ∈ [1], islocalfscompatible b FS_EXT = true) ∧
    (escapefsincompatible [1] FS_EXT).map unescapefsincompatible ≠ some [1] := by
  decide

/-- The escape loop leaves a name alone when every byte is
filesystem-compatible (and is a valid UTF-8 lead or ASCII byte, so the
`assert(seqsize)` guard is never hit). -/
theorem escapeLoopFuel_fixed (fs : FileSystemType) :
    ∀ n N, N.length ≤ n →
      (∀ b ∈ N, islocalfscompatible b fs = true ∧ utf8SequenceSize b ≠ 0) →
      escapeLoopFuel fs n N = some N := by
  intro n
  induction n with
  | zero =>
    intro N hlen _
    obtain rfl : N = [] := List.length_eq_zero.mp (Nat.le_zero.mp hlen)
    rfl
  | succ n ih =>
    intro N hlen hH
    cases N with
    | nil => rfl
    | cons b rest =>
      obtain ⟨hcomp, hs0⟩ := hH b (List.mem_cons_self b rest)
      have hb37 : b ≠ 37 := ne_37_of_compatible hcomp
      have hrest : ∀ x ∈ rest, islocalfscompatible x fs = true ∧ utf8SequenceSize x ≠ 0 :=
        fun x hx => hH x (List.mem_cons_of_mem _ hx)
      have hlen' : rest.length ≤ n := by simp at hlen; omega
      by_cases hs1 : utf8SequenceSize b = 1
      · simp [escapeLoopFuel, hb37, hs1, hcomp, ih rest hlen' hrest]
      · have ihd := ih (rest.drop (utf8SequenceSize b - 1))
          (le_trans (by simp) hlen')
          (fun x hx => hrest x (List.drop_subset _ _ hx))
        simp [escapeLoopFuel, hb37, hs0, hs1, ihd]

/-- The unescape loop leaves a name alone when it contains no percent byte
and no raw control byte. -/
theorem unescapeLoopFuel_fixed :
    ∀ n N, N.length ≤ n → (∀ b ∈ N, b ≠ 37 ∧ iscntrl b = false) →
      unescapeLoopFuel n N = N := by
  intro n
  induction n with
  | zero =>
    intro N hlen _
    obtain rfl : N = [] := List.length_eq_zero.mp (Nat.le_zero.mp hlen)
    rfl
  | succ n ih =>
    intro N hlen hH
    cases N with
    | nil => rfl
    | cons b rest =>
      obtain ⟨hb37, hcn⟩ := hH b (List.mem_cons_self b rest)
      simp [unescapeLoopFuel, hb37, hcn,
        ih rest (by simp at hlen; omega) (fun x hx => hH x (List.mem_cons_of_mem _ hx))]

/-- Claim C2, amended: `unescape(escape(N,T))` reproduces N exactly
whenever every byte of N is in T's filesystem-compatible set, is not a
control byte (a compatible raw control byte — possible on EXT/F2FS/XFS,
HFS and APFS — would be defensively re-escaped by `unescape`), and is a
valid UTF-8 lead or ASCII byte (otherwise `escape` trips its
`assert(seqsize)` guard); and "." and ".." round-trip exactly through
"%2e" / "%2e%2e". -/
theorem unescape_escape_roundtrip (fs : FileSystemType) (N : List Nat) :
    ((∀ b ∈ N, islocalfscompatible b fs = true ∧ iscntrl b = false ∧
        utf8SequenceSize b ≠ 0) →
      (escapefsincompatible N fs).map unescapefsincompatible = some N) ∧
    (escapefsincompatible [46] fs = some [37, 50, 101] ∧
      unescapefsincompatible [37, 50, 101] = [46]) ∧
    (escapefsincompatible [46, 46] fs = some [37, 50, 101, 37, 50, 101] ∧
      unescapefsincompatible [37, 50, 101, 37, 50, 101] = [46, 46]) := by
  refine ⟨?_, ⟨?_, by decide⟩, ⟨?_, by decide⟩⟩
  · intro h
    by_cases h2 : N = [46, 46]
    · subst h2; rfl
    · by_cases h1 : N = [46]
      · subst h1; rfl
      · rw [escapefsincompatible, if_neg h2, if_neg h1]
        rw [escapeLoopFuel_fixed fs N.length N le_rfl
          (fun b hb => ⟨(h b hb).1, (h b hb).2.2⟩)]
        have h37 : (37 : Nat) ∉ N := fun hmem => by
          have hc := (h 37 hmem).1
          rw [islocalfscompatible_percent] at hc
          exact absurd hc (by simp)
        have hA : N ≠ [37, 50, 101, 37, 50, 101] := fun hEq => h37 (by rw [hEq]; simp)
        have hB : N ≠ [37, 50, 101] := fun hEq => h37 (by rw [hEq]; simp)
        simp only [Option.map_some']
        rw [unescapefsincompatible, if_neg hA, if_neg hB, unescapeLoop]
        rw [unescapeLoopFuel_fixed N.length N le_rfl
          (fun b hb => ⟨ne_37_of_compatible (h b hb).1, (h b hb).2.1⟩)]
  · rfl
  · rfl

/-- Claim C2 witness: the amended round trip applied to the name "a" on
EXT. -/
theorem unescape_escape_roundtrip_witness :
    (escapefsincompatible [97] FS_EXT).map unescapefsincompatible = some [97] :=
  (unescape_escape_roundtrip FS_EXT [97]).1 (by decide)

/-- Claim C4, counterexample: for the path "x/y/z" where only the
grandparent "x/" resolves, the code returns `FS_UNKNOWN` (it checks the
path and its immediate parent only), while the recursive
nearest-existing-ancestor search described by the claim returns the
grandparent type `FS_EXT`. -/
theorem getlocalfstype_no_ancestor_recursion :
    getlocalfstype (fun q => if q = [120, 47] then some FS_EXT else none) 47
        [120, 47, 121, 47, 122] = FS_UNKNOWN ∧
    getlocalfstypeSpec (fun q => if q = [120, 47] then some FS_EXT else none) 47
        [120, 47, 121, 47, 122] = FS_EXT ∧
    FS_UNKNOWN ≠ FS_EXT := by
  decide

/-- The digit produced by the hexadecimal formatting is a lowercase hex
digit. -/
theorem islchex_hexDigit {m : Nat} (h : m < 16) : islchex (hexDigit m) = true := by
  unfold islchex hexDigit
  split_ifs <;> simp <;> omega

/-- `hexval` inverts the hexadecimal formatting digit-wise. -/
theorem hexval_hexDigit {m : Nat} (h : m < 16) : hexval (hexDigit m) = m := by
  unfold hexval hexDigit
  split_ifs <;> omega

/-- Control bytes are byte values. -/
theorem iscntrl_lt_256 {c : Nat} (h : iscntrl c = true) : c < 256 := by
  unfold iscntrl at h
  simp at h
  omega

/-- The escape loop maps the empty name to itself at any fuel. -/
theorem escapeLoopFuel_nil (fs : FileSystemType) (k : Nat) :
    escapeLoopFuel fs k [] = some [] := by
  cases k <;> rfl

/-- Reprocessing an escape sequence that encodes an incompatible control
byte reproduces it: the loop decodes it, substitutes the control byte and
immediately re-escapes it to the same three bytes. -/
theorem escapeLoopFuel_escapeSequence (fs : FileSystemType) {c : Nat}
    (hc : iscntrl c = true) (hcomp : islocalfscompatible c fs = false)
    {m : Nat} {tail res : List Nat}
    (htail : escapeLoopFuel fs m tail = some res) :
    escapeLoopFuel fs (m + 1) (escapeSequence c ++ tail)
      = some (escapeSequence c ++ res) := by
  have h256 : c < 256 := iscntrl_lt_256 hc
  have h1 : c / 16 < 16 := by omega
  have h2 : c % 16 < 16 := by omega
  have e1 := islchex_hexDigit h1
  have e2 := islchex_hexDigit h2
  have hval : hexval (hexDigit (c / 16)) * 16 + hexval (hexDigit (c % 16)) = c := by
    rw [hexval_hexDigit h1, hexval_hexDigit h2]; omega
  show escapeLoopFuel fs (m + 1)
      (37 :: hexDigit (c / 16) :: hexDigit (c % 16) :: tail) = _
  simp only [escapeLoopFuel]
  simp [e1, e2, hval, hc, hcomp, htail, escapeSequence]

/-- Invariant of the escape loop on names every byte of which is either
filesystem-compatible or a control byte: the output is a fixed point of
the loop, and it can only be "." or ".." (or empty) when the input already
was. -/
theorem escapeLoopFuel_inv (fs : FileSystemType) :
    ∀ n N M, N.length ≤ n →
      (∀ b ∈ N, islocalfscompatible b fs = true ∨ iscntrl b = true) →
      escapeLoopFuel fs n N = some M →
      (∀ m, M.length ≤ m → escapeLoopFuel fs m M = some M) ∧
      (M = [] → N = []) ∧ (M = [46] → N = [46]) ∧ (M = [46, 46] → N = [46, 46]) := by
  intro n
  induction n with
  | zero =>
    intro N M hlen _ heq
    obtain rfl : N = [] := List.length_eq_zero.mp (Nat.le_zero.mp hlen)
    rw [escapeLoopFuel_nil] at heq
    obtain rfl : M = [] := (Option.some.inj heq).symm
    exact ⟨fun m _ => escapeLoopFuel_nil fs m, fun _ => rfl,
      fun h => absurd h (by decide), fun h => absurd h (by decide)⟩
  | succ n ih =>
    intro N M hlen hH heq
    cases N with
    | nil =>
      rw [escapeLoopFuel_nil] at heq
      obtain rfl : M = [] := (Option.some.inj heq).symm
      exact ⟨fun m _ => escapeLoopFuel_nil fs m, fun _ => rfl,
        fun h => absurd h (by decide), fun h => absurd h (by decide)⟩
    | cons b rest =>
      have hb := hH b (List.mem_cons_self b rest)
      have hb37 : b ≠ 37 := by
        rcases hb with h | h
        · exact ne_37_of_compatible h
        · intro hEq; rw [hEq] at h; exact absurd h (by decide)
      have hrest : ∀ x ∈ rest, islocalfscompatible x fs = true ∨ iscntrl x = true :=
        fun x hx => hH x (List.mem_cons_of_mem _ hx)
      have hlen' : rest.length ≤ n := by simp at hlen; omega
      by_cases hs0 : utf8SequenceSize b = 0
      · simp [escapeLoopFuel, hb37, hs0] at heq
      · by_cases hs1 : utf8SequenceSize b = 1
        · by_cases hcomp : islocalfscompatible b fs = true
          · simp only [escapeLoopFuel, if_neg hb37] at heq
            rw [hs1] at heq
            simp [hcomp] at heq
            obtain ⟨M', hM', rfl⟩ := heq
            obtain ⟨ihA, ihB, ihC, ihD⟩ := ih rest M' hlen' hrest hM'
            refine ⟨?_, ?_, ?_, ?_⟩
            · intro m hm
              cases m with
              | zero => simp at hm
              | succ m' =>
                have hfm : escapeLoopFuel fs m' M' = some M' :=
                  ihA m' (by simp at hm; omega)
                simp only [escapeLoopFuel, if_neg hb37]
                rw [hs1]
                simp [hcomp, hfm]
            · intro h; simp at h
            · intro h
              injection h with h1 h2
              subst h1
              simp [ihB h2]
            · intro h
              injection h with h1 h2
              subst h1
              simp [ihC h2]
          · have hcn : iscntrl b = true := by
              rcases hb with h | h
              · exact absurd h hcomp
              · exact h
            have hcompF : islocalfscompatible b fs = false := by
              cases hx : islocalfscompatible b fs
              · rfl
              · exact absurd hx hcomp
            simp only [escapeLoopFuel, if_neg hb37] at heq
            rw [hs1] at heq
            simp [hcompF] at heq
            obtain ⟨M', hM', rfl⟩ := heq
            obtain ⟨ihA, ihB, ihC, ihD⟩ := ih rest M' hlen' hrest hM'
            refine ⟨?_, ?_, ?_, ?_⟩
            · intro m hm
              cases m with
              | zero => simp [escapeSequence] at hm
              | succ m' =>
                exact escapeLoopFuel_escapeSequence fs hcn hcompF
                  (ihA m' (by simp [escapeSequence] at hm ⊢; omega))
            · intro h; simp [escapeSequence] at h
            · intro h; simp [escapeSequence] at h
            · intro h; simp [escapeSequence] at h
        · have hb46 : b ≠ 46 := fun hEq => hs1 (by rw [hEq]; rfl)
          simp only [escapeLoopFuel, if_neg hb37] at heq
          simp [hs0, hs1] at heq
          obtain ⟨M', hM', rfl⟩ := heq
          obtain ⟨ihA, ihB, ihC, ihD⟩ := ih (rest.drop (utf8SequenceSize b - 1)) M'
            (le_trans (by simp) hlen')
            (fun x hx => hrest x (List.drop_subset _ _ hx)) hM'
          refine ⟨?_, ?_, ?_, ?_⟩
          · intro m hm
            cases m with
            | zero => simp at hm
            | succ m' =>
              by_cases hrl : utf8SequenceSize b - 1 ≤ rest.length
              · have hXlen : (rest.take (utf8SequenceSize b - 1)).length
                    = utf8SequenceSize b - 1 := by
                  simp [List.length_take]; omega
                have hdrop : ((rest.take (utf8SequenceSize b - 1)) ++ M').drop
                    (utf8SequenceSize b - 1) = M' := List.drop_left' hXlen
                have htake : ((rest.take (utf8SequenceSize b - 1)) ++ M').take
                    (utf8SequenceSize b - 1) = rest.take (utf8SequenceSize b - 1) :=
                  List.take_left' hXlen
                have hfm : escapeLoopFuel fs m' M' = some M' := ihA m' (by
                  simp [List.length_take] at hm ⊢; omega)
                simp only [escapeLoopFuel, if_neg hb37]
                simp [hs0, hs1, hdrop, htake, hfm]
              · push_neg at hrl
                have htr : rest.take (utf8SequenceSize b - 1) = rest :=
                  List.take_of_length_le (by omega)
                have hdr : rest.drop (utf8SequenceSize b - 1) = [] :=
                  List.drop_eq_nil_of_le (by omega)
                rw [hdr, escapeLoopFuel_nil] at hM'
                obtain rfl : M' = [] := (Option.some.inj hM').symm
                simp only [escapeLoopFuel, if_neg hb37]
                simp [hs0, hs1, htr, hdr, escapeLoopFuel_nil]
          · intro h; simp at h
          · intro h
            injection h with h1 _
            exact absurd h1 hb46
          · intro h
            injection h with h1 _
            exact absurd h1 hb46

/-- Claim C1, amended: `escapefsincompatible` is idempotent on names other
than "." and ".." in which every byte is either filesystem-compatible or a
control byte.  (It is not idempotent in general: any incompatible
non-control byte — in particular "%" itself, and "." / ".." through their
wholesale replacement — produces a non-control escape token whose leading
percent a second pass escapes again.) -/
theorem escapefsincompatible_idem_on_compatible_or_control
    (fs : FileSystemType) (N : List Nat)
    (h1 : N ≠ [46]) (h2 : N ≠ [46, 46])
    (h : ∀ b ∈ N, islocalfscompatible b fs = true ∨ iscntrl b = true) :
    (escapefsincompatible N fs).bind (fun M => escapefsincompatible M fs)
      = escapefsincompatible N fs := by
  rw [escapefsincompatible, if_neg h2, if_neg h1]
  cases heq : escapeLoopFuel fs N.length N with
  | none => rfl
  | some M =>
    obtain ⟨ihA, _, ihC, ihD⟩ := escapeLoopFuel_inv fs N.length N M le_rfl h heq
    have hM1 : M ≠ [46] := fun hEq => h1 (ihC hEq)
    have hM2 : M ≠ [46, 46] := fun hEq => h2 (ihD hEq)
    show escapefsincompatible M fs = some M
    rw [escapefsincompatible, if_neg hM2, if_neg hM1]
    exact ihA M.length le_rfl

/-- Claim C1 witness: idempotence applied to the name "a" on the unknown
filesystem type. -/
theorem escapefsincompatible_idem_witness :
    (escapefsincompatible [97] FS_UNKNOWN).bind
        (fun M => escapefsincompatible M FS_UNKNOWN)
      = escapefsincompatible [97] FS_UNKNOWN :=
  escapefsincompatible_idem_on_compatible_or_control FS_UNKNOWN [97]
    (by decide) (by decide) (by decide)

/-- Claim C4, amended: `getlocalfstype` returns `FS_UNKNOWN` for an empty
path; returns the resolved type of the path itself when the path resolves;
and otherwise strips the trailing separator and the final component and
checks only that immediate parent — returning its resolved type, or
`FS_UNKNOWN` when the parent does not resolve, is empty, or has no leaf
index.  It does not continue recursing to further ancestors. -/
theorem getlocalfstype_checks_path_then_parent
    (resolve : List Nat → Option FileSystemType) (sep : Nat) (path : List Nat) :
    (path = [] → getlocalfstype resolve sep path = FS_UNKNOWN) ∧
    (∀ t, path ≠ [] → resolve path = some t → getlocalfstype resolve sep path = t) ∧
    (path ≠ [] → resolve path = none →
      getlocalfstype resolve sep path =
        (if trimNonDriveTrailingSeparator sep path = [] then FS_UNKNOWN
         else if getLeafnameByteIndex sep (trimNonDriveTrailingSeparator sep path) = 0 then
           FS_UNKNOWN
         else (resolve ((trimNonDriveTrailingSeparator sep path).take
             (getLeafnameByteIndex sep (trimNonDriveTrailingSeparator sep path)))).getD
             FS_UNKNOWN)) := by
  refine ⟨fun h => by simp [getlocalfstype, h],
    fun t hne hres => by simp [getlocalfstype, hne, hres],
    fun hne hres => ?_⟩
  simp only [getlocalfstype, if_neg hne, hres]
  by_cases hp : trimNonDriveTrailingSeparator sep path = []
  · simp [hp]
  · by_cases hi : getLeafnameByteIndex sep (trimNonDriveTrailingSeparator sep path) = 0
    · simp [hp, hi]
    · cases hr : resolve ((trimNonDriveTrailingSeparator sep path).take
          (getLeafnameByteIndex sep (trimNonDriveTrailingSeparator sep path))) <;>
        simp [hp, hi, hr]

/-- Claim C4 witness: the one-step characterization applied to the
single-component path "a" under a resolver that never succeeds. -/
theorem getlocalfstype_checks_path_then_parent_witness :
    getlocalfstype (fun _ => none) 47 [97] = FS_UNKNOWN := by
  have h := (getlocalfstype_checks_path_then_parent (fun _ => none) 47 [97]).2.2
    (by decide) rfl
  rw [h]; decide

end MegaFs
